import Mathlib

/-!
Verification of the image-prompt adapter core
(`refiners/foundationals/latent_diffusion/image_prompt.py`).

The development shallowly embeds the structural graph-surgery operations of
`CrossAttentionAdapter` / `IPAdapter` (a tree of computation nodes with
ordered children, type-directed search with Lora pruning, injection points,
inject/eject substitution), the ordinal weight-bundle routing, the
pseudo-token embedding pairing, the tensor normalization helper, and the
value-level semantics of the scale factor and of the context slicing.

Components of the repository that the source file uses but that live
outside it (the fluxion `Chain`/`Adapter` machinery, `load_state_dict`,
the CLIP encoder, the slicing layer) are modelled from the specification's
description of their contracts; each such definition carries a doc comment
saying so.
-/

namespace ImagePrompt

/-- Tags for the graph container variants that occur in the source:
plain `fl.Chain`, `fl.Distribute`, `fl.Parallel`, `fl.Sum`, the
`InjectionPoint` placeholder (an `fl.Chain` subclass), a `Lora` wrapper
(also an `fl.Chain` subclass) and an `fl.Attention` chain. -/
inductive NodeKind where
  | plain
  | distribute
  | parallel
  | sum
  | injectionPoint
  | lora
  | attention
  deriving DecidableEq, Repr

/-- A computation-graph node: parameter-bearing `fl.Linear` leaves
(identified by an id standing for object identity, plus their constructor
arguments), `fl.Slicing`, `ScaledDotProductAttention` and `fl.Lambda`
leaves, and containers with an ordered list of children. -/
inductive Node where
  | linear (id : Nat) (inFeatures : Nat) (outFeatures : Nat) (useBias : Bool)
  | slicing (dim : Nat) (start : Nat) (len : Nat)
  | sdpa (numHeads : Nat) (isCausal : Bool)
  | lam (id : Nat)
  | chain (kind : NodeKind) (children : List Node)
  deriving Repr

mutual

def Node.decEq : (a b : Node) → Decidable (a = b)
  | Node.linear i1 f1 o1 b1, Node.linear i2 f2 o2 b2 =>
    if h : i1 = i2 ∧ f1 = f2 ∧ o1 = o2 ∧ b1 = b2 then
      isTrue (by obtain ⟨h1, h2, h3, h4⟩ := h; rw [h1, h2, h3, h4])
    else
      isFalse (by intro he; injection he with h1 h2 h3 h4; exact h ⟨h1, h2, h3, h4⟩)
  | Node.slicing d1 s1 l1, Node.slicing d2 s2 l2 =>
    if h : d1 = d2 ∧ s1 = s2 ∧ l1 = l2 then
      isTrue (by obtain ⟨h1, h2, h3⟩ := h; rw [h1, h2, h3])
    else
      isFalse (by intro he; injection he with h1 h2 h3; exact h ⟨h1, h2, h3⟩)
  | Node.sdpa n1 c1, Node.sdpa n2 c2 =>
    if h : n1 = n2 ∧ c1 = c2 then
      isTrue (by obtain ⟨h1, h2⟩ := h; rw [h1, h2])
    else
      isFalse (by intro he; injection he with h1 h2; exact h ⟨h1, h2⟩)
  | Node.lam i1, Node.lam i2 =>
    if h : i1 = i2 then isTrue (by rw [h])
    else isFalse (by intro he; injection he with h1; exact h h1)
  | Node.chain k1 cs1, Node.chain k2 cs2 =>
    if hk : k1 = k2 then
      match Node.decEqList cs1 cs2 with
      | isTrue hc => isTrue (by rw [hk, hc])
      | isFalse hc => isFalse (by intro he; injection he with h1 h2; exact hc h2)
    else
      isFalse (by intro he; injection he with h1 h2; exact hk h1)
  | Node.linear .., Node.slicing .. => isFalse (by intro h; exact Node.noConfusion h)
  | Node.linear .., Node.sdpa .. => isFalse (by intro h; exact Node.noConfusion h)
  | Node.linear .., Node.lam .. => isFalse (by intro h; exact Node.noConfusion h)
  | Node.linear .., Node.chain .. => isFalse (by intro h; exact Node.noConfusion h)
  | Node.slicing .., Node.linear .. => isFalse (by intro h; exact Node.noConfusion h)
  | Node.slicing .., Node.sdpa .. => isFalse (by intro h; exact Node.noConfusion h)
  | Node.slicing .., Node.lam .. => isFalse (by intro h; exact Node.noConfusion h)
  | Node.slicing .., Node.chain .. => isFalse (by intro h; exact Node.noConfusion h)
  | Node.sdpa .., Node.linear .. => isFalse (by intro h; exact Node.noConfusion h)
  | Node.sdpa .., Node.slicing .. => isFalse (by intro h; exact Node.noConfusion h)
  | Node.sdpa .., Node.lam .. => isFalse (by intro h; exact Node.noConfusion h)
  | Node.sdpa .., Node.chain .. => isFalse (by intro h; exact Node.noConfusion h)
  | Node.lam .., Node.linear .. => isFalse (by intro h; exact Node.noConfusion h)
  | Node.lam .., Node.slicing .. => isFalse (by intro h; exact Node.noConfusion h)
  | Node.lam .., Node.sdpa .. => isFalse (by intro h; exact Node.noConfusion h)
  | Node.lam .., Node.chain .. => isFalse (by intro h; exact Node.noConfusion h)
  | Node.chain .., Node.linear .. => isFalse (by intro h; exact Node.noConfusion h)
  | Node.chain .., Node.slicing .. => isFalse (by intro h; exact Node.noConfusion h)
  | Node.chain .., Node.sdpa .. => isFalse (by intro h; exact Node.noConfusion h)
  | Node.chain .., Node.lam .. => isFalse (by intro h; exact Node.noConfusion h)

def Node.decEqList : (as bs : List Node) → Decidable (as = bs)
  | [], [] => isTrue rfl
  | _ :: _, [] => isFalse (by intro h; exact List.noConfusion h)
  | [], _ :: _ => isFalse (by intro h; exact List.noConfusion h)
  | a :: as, b :: bs =>
    match Node.decEq a b with
    | isTrue hab =>
      match Node.decEqList as bs with
      | isTrue habs => isTrue (by rw [hab, habs])
      | isFalse habs => isFalse (by intro h; injection h with h1 h2; exact habs h2)
    | isFalse hab => isFalse (by intro h; injection h with h1 h2; exact hab h1)

end

instance : DecidableEq Node := Node.decEq

-- Embeds `CrossAttentionAdapter._target_linears` together with
-- `CrossAttentionAdapter._predicate` and the fluxion `Chain.walk` it relies
-- on (the walk itself is repository code outside the provided sources,
-- modelled from the spec: depth-first traversal of the children yielding
-- every `fl.Linear` leaf, where encountering a `Lora` wrapper raises the
-- early-exit `StopIteration` signal that prunes that whole subtree).
mutual

def walkLinears : Node → List Node
  | Node.linear i a b c => [Node.linear i a b c]
  | Node.chain NodeKind.lora _ => []
  | Node.chain _ cs => walkLinearsList cs
  | _ => []

def walkLinearsList : List Node → List Node
  | [] => []
  | c :: cs => walkLinears c ++ walkLinearsList cs

end

theorem walkLinears_skips_direct_lora : walkLinears (Node.chain NodeKind.attention
    [Node.linear 0 4 4 true, Node.chain NodeKind.lora [Node.linear 1 4 4 true]]) =
    [Node.linear 0 4 4 true] := by
  simp [walkLinears, walkLinearsList]

-- Embeds `self.layers(InjectionPoint)` (the fluxion `Chain.layers` walk is
-- repository code outside the provided sources, modelled from the spec:
-- enumerate, in depth-first order, every `InjectionPoint` descendant,
-- without descending into a matched node).  Each injection point is
-- represented by its list of children.
mutual

def ipContents : Node → List (List Node)
  | Node.chain NodeKind.injectionPoint cs => [cs]
  | Node.chain _ cs => ipContentsList cs
  | _ => []

def ipContentsList : List Node → List (List Node)
  | [] => []
  | c :: cs => ipContents c ++ ipContentsList cs

end

/-- Introspectable attributes of the target `fl.Attention` node that
`CrossAttentionAdapter.__init__` reads (`key_embedding_dim`, `inner_dim`,
`use_bias`, `num_heads`, `is_causal`). -/
structure TargetAttrs where
  keyEmbeddingDim : Nat
  innerDim : Nat
  useBias : Bool
  numHeads : Nat
  isCausal : Bool
  deriving DecidableEq, Repr

/-- State of a `CrossAttentionAdapter`: the (non-owning) back-reference to
the target attention node, the attributes read from it, the constructor
arguments, the ids standing for the identity of the two freshly created
image key/value `fl.Linear` layers, and the current contents of the four
`InjectionPoint`s in their fixed declaration order (query, key, value,
output).  The lemma `ipContents_chain` below shows that these four fields
are exactly what `self.layers(InjectionPoint)` yields on the chain built by
`__init__`. -/
structure CrossAttentionAdapter where
  target : Node
  attrs : TargetAttrs
  text_sequence_length : Nat
  image_sequence_length : Nat
  scale : ℚ
  wkImageId : Nat
  wvImageId : Nat
  ipq : List Node
  ipk : List Node
  ipv : List Node
  ipo : List Node
  deriving DecidableEq, Repr

/-- The chain built by `CrossAttentionAdapter.__init__` (lines 72-121):
a Distribute of the query injection point and two Parallel text/image
key and value branches (text branch: a slice of the first
`text_sequence_length` positions followed by an injection point; image
branch: a slice of the next `image_sequence_length` positions followed by
a fresh `fl.Linear` from `key_embedding_dim` to `inner_dim`), then a Sum
of the text attention branch and the scaled image attention branch, then
the output-projection injection point. -/
def CrossAttentionAdapter.chain (a : CrossAttentionAdapter) : Node :=
  Node.chain NodeKind.plain
    [Node.chain NodeKind.distribute
      [Node.chain NodeKind.injectionPoint a.ipq,
       Node.chain NodeKind.parallel
        [Node.chain NodeKind.plain
          [Node.slicing 1 0 a.text_sequence_length,
           Node.chain NodeKind.injectionPoint a.ipk],
         Node.chain NodeKind.plain
          [Node.slicing 1 a.text_sequence_length a.image_sequence_length,
           Node.linear a.wkImageId a.attrs.keyEmbeddingDim a.attrs.innerDim a.attrs.useBias]],
       Node.chain NodeKind.parallel
        [Node.chain NodeKind.plain
          [Node.slicing 1 0 a.text_sequence_length,
           Node.chain NodeKind.injectionPoint a.ipv],
         Node.chain NodeKind.plain
          [Node.slicing 1 a.text_sequence_length a.image_sequence_length,
           Node.linear a.wvImageId a.attrs.keyEmbeddingDim a.attrs.innerDim a.attrs.useBias]]],
     Node.chain NodeKind.sum
      [Node.chain NodeKind.plain
        [Node.lam 0, Node.sdpa a.attrs.numHeads a.attrs.isCausal],
       Node.chain NodeKind.plain
        [Node.lam 1, Node.sdpa a.attrs.numHeads a.attrs.isCausal, Node.lam 2]],
     Node.chain NodeKind.injectionPoint a.ipo]

/-- Embeds `CrossAttentionAdapter.__init__`: record the constructor
arguments, read the target's attributes and build the parallel fragment
with all four injection points empty.  No count check and no mutation of
the target happens here; the exactly-4 check lives in `inject`. -/
def CrossAttentionAdapter.init (target : Node) (attrs : TargetAttrs)
    (text_sequence_length image_sequence_length : Nat) (scale : ℚ)
    (wkImageId wvImageId : Nat) : CrossAttentionAdapter :=
  { target := target
    attrs := attrs
    text_sequence_length := text_sequence_length
    image_sequence_length := image_sequence_length
    scale := scale
    wkImageId := wkImageId
    wvImageId := wvImageId
    ipq := []
    ipk := []
    ipv := []
    ipo := [] }

theorem ipContents_chain (a : CrossAttentionAdapter) :
    ipContents a.chain = [a.ipq, a.ipk, a.ipv, a.ipo] := by
  simp [CrossAttentionAdapter.chain, ipContents, ipContentsList]

/-- Embeds `CrossAttentionAdapter._target_linears` (line 139-140): walk the
target with the Lora-pruning predicate.  The redundant `isinstance` filter
of the list comprehension keeps only `fl.Linear` leaves, which is all the
walk yields. -/
def CrossAttentionAdapter.target_linears (a : CrossAttentionAdapter) : List Node :=
  match a.target with
  | Node.chain _ cs => walkLinearsList cs
  | _ => []

/-- A slot of the parent container's child list: either an ordinary node or
the position occupied by the (unique) adapter under consideration.  Keeping
the adapter's slot symbolic models the sharing between the parent container
and the mutable adapter object. -/
inductive Slot where
  | node (n : Node)
  | adapterSlot
  deriving DecidableEq, Repr

/-- Modelled from the spec: the fluxion `Chain.replace` used by
`Adapter.inject` / `Adapter.eject` (repository code outside the provided
sources) swaps the child at the parent's position, failing when the old
child is absent. -/
def replaceFirst (old new : Slot) : List Slot → Option (List Slot)
  | [] => none
  | x :: xs =>
    if x = old then some (new :: xs)
    else (replaceFirst old new xs).map (fun ys => x :: ys)

/-- Embeds `CrossAttentionAdapter.inject` (lines 142-153): compute the
target's matching linears, assert exactly 4, locate the four injection
points, append linear `i` to injection point `i` asserting it becomes a
singleton, and finally perform the `super().inject(parent)` substitution
(modelled from the spec: replace the target node in its parent container
with this adapter).  Any failed assertion aborts with no mutation
performed. -/
def CrossAttentionAdapter.inject (a : CrossAttentionAdapter) (parent : List Slot) :
    Option (CrossAttentionAdapter × List Slot) :=
  match a.target_linears with
  | [l0, l1, l2, l3] =>
    if (ipContents a.chain).length = 4 then
      let q := a.ipq ++ [l0]
      let k := a.ipk ++ [l1]
      let v := a.ipv ++ [l2]
      let o := a.ipo ++ [l3]
      if q.length = 1 ∧ k.length = 1 ∧ v.length = 1 ∧ o.length = 1 then
        match replaceFirst (Slot.node a.target) Slot.adapterSlot parent with
        | some p => some ({ a with ipq := q, ipk := k, ipv := v, ipo := o }, p)
        | none => none
      else none
    else none
  | _ => none

/-- The fluxion `Chain.pop` with its default index: remove the last child,
failing on an empty chain. -/
def chainPop : List Node → Option (List Node)
  | [] => none
  | cs => some cs.dropLast

/-- Embeds `CrossAttentionAdapter.eject` (lines 155-163): locate the four
injection points, pop the sole child of each asserting it becomes empty,
then perform the `super().eject()` restoration (modelled from the spec:
restore the target node back into its original parent position). -/
def CrossAttentionAdapter.eject (a : CrossAttentionAdapter) (parent : List Slot) :
    Option (CrossAttentionAdapter × List Slot) :=
  if (ipContents a.chain).length = 4 then
    match chainPop a.ipq, chainPop a.ipk, chainPop a.ipv, chainPop a.ipo with
    | some q, some k, some v, some o =>
      if q.length = 0 ∧ k.length = 0 ∧ v.length = 0 ∧ o.length = 0 then
        match replaceFirst Slot.adapterSlot (Slot.node a.target) parent with
        | some p => some ({ a with ipq := q, ipk := k, ipv := v, ipo := o }, p)
        | none => none
      else none
    | _, _, _, _ => none
  else none

theorem replaceFirst_round_trip (old new : Slot) :
    ∀ p : List Slot, old ∈ p → new ∉ p →
      ∃ p', replaceFirst old new p = some p' ∧ replaceFirst new old p' = some p := by
  intro p
  induction p with
  | nil => intro h; exact absurd h (List.not_mem_nil old)
  | cons x xs ih =>
    intro hmem hnew
    by_cases hx : x = old
    · refine ⟨new :: xs, ?_, ?_⟩
      · simp [replaceFirst, hx]
      · simp [replaceFirst, hx]
    · have hmem' : old ∈ xs := by
        rcases List.mem_cons.mp hmem with h | h
        · exact absurd h.symm hx
        · exact h
      have hxnew : x ≠ new := by
        intro h; exact hnew (by rw [← h]; exact List.mem_cons_self x xs)
      have hnew' : new ∉ xs := fun h => hnew (List.mem_cons_of_mem x h)
      obtain ⟨xs', h1, h2⟩ := ih hmem' hnew'
      refine ⟨x :: xs', ?_, ?_⟩
      · simp [replaceFirst, hx, h1]
      · simp [replaceFirst, fun h => hxnew h, h2]

theorem exists_list_four {α : Type} {l : List α} (h : l.length = 4) :
    ∃ a b c d, l = [a, b, c, d] := by
  rcases l with _ | ⟨a, l⟩
  · simp at h
  rcases l with _ | ⟨b, l⟩
  · simp at h
  rcases l with _ | ⟨c, l⟩
  · simp at h
  rcases l with _ | ⟨d, l⟩
  · simp at h
  rcases l with _ | ⟨e, l⟩
  · exact ⟨a, b, c, d, rfl⟩
  · simp at h

/-- C1.  For every target attention graph whose type-directed search yields
exactly 4 matching linear-map parameter leaves, `inject()` followed
immediately by `eject()` restores the parent container to exactly its
pre-injection child list (same node values, same order), leaves the target
node itself untouched, and returns all four of the adapter's
`InjectionPoint`s to the empty state. -/
theorem cross_attention_inject_eject_round_trip
    (target : Node) (attrs : TargetAttrs) (tsl isl : Nat) (scale : ℚ) (wk wv : Nat)
    (parent : List Slot)
    (h4 : (CrossAttentionAdapter.init target attrs tsl isl scale wk wv).target_linears.length = 4)
    (hmem : Slot.node target ∈ parent)
    (hfresh : Slot.adapterSlot ∉ parent) :
    ∃ a1 p1 a2 p2,
      (CrossAttentionAdapter.init target attrs tsl isl scale wk wv).inject parent =
        some (a1, p1) ∧
      a1.eject p1 = some (a2, p2) ∧
      p2 = parent ∧
      a2.target = target ∧
      ipContents a2.chain = [[], [], [], []] := by
  obtain ⟨p1, hp1, hp1'⟩ := replaceFirst_round_trip (Slot.node target) Slot.adapterSlot
    parent hmem hfresh
  obtain ⟨l0, l1, l2, l3, hl⟩ := exists_list_four h4
  set a0 := CrossAttentionAdapter.init target attrs tsl isl scale wk wv with ha0
  have htgt : a0.target = target := rfl
  refine ⟨{ a0 with ipq := [l0], ipk := [l1], ipv := [l2], ipo := [l3] }, p1,
    { a0 with ipq := [], ipk := [], ipv := [], ipo := [] }, parent, ?_, ?_, rfl, rfl, ?_⟩
  · rw [CrossAttentionAdapter.inject, hl]
    simp only [ipContents_chain]
    rw [htgt, hp1]
    simp [ha0, CrossAttentionAdapter.init]
  · rw [CrossAttentionAdapter.eject]
    simp only [ipContents_chain]
    simp only [chainPop]
    rw [htgt, hp1']
    simp
  · rw [ipContents_chain]

/-- Attributes matching a typical SD1 cross-attention block; any values
work, they are only read, never checked. -/
def sampleAttrs : TargetAttrs :=
  { keyEmbeddingDim := 768, innerDim := 320, useBias := false, numHeads := 8, isCausal := false }

/-- A well-formed target attention node: a Distribute of the three
query/key/value linear maps, the attention primitive, and the output
projection — exactly 4 matching linear leaves in walk order. -/
def sampleAttention : Node :=
  Node.chain NodeKind.attention
    [Node.chain NodeKind.distribute
      [Node.linear 0 320 320 false, Node.linear 1 768 320 false, Node.linear 2 768 320 false],
     Node.sdpa 8 false,
     Node.linear 3 320 320 false]

theorem cross_attention_inject_eject_round_trip_witness :
    ∃ a1 p1 a2 p2,
      (CrossAttentionAdapter.init sampleAttention sampleAttrs 77 4 1 100 101).inject
        [Slot.node sampleAttention] = some (a1, p1) ∧
      a1.eject p1 = some (a2, p2) ∧
      p2 = [Slot.node sampleAttention] ∧
      a2.target = sampleAttention ∧
      ipContents a2.chain = [[], [], [], []] := by
  apply cross_attention_inject_eject_round_trip sampleAttention sampleAttrs 77 4 1 100 101
    [Slot.node sampleAttention]
  · simp [CrossAttentionAdapter.init, CrossAttentionAdapter.target_linears,
      sampleAttention, walkLinears, walkLinearsList]
  · exact List.mem_singleton.mpr rfl
  · simp

/-- A target with only 3 matching linear leaves (no output projection). -/
def threeLinearTarget : Node :=
  Node.chain NodeKind.attention
    [Node.chain NodeKind.distribute
      [Node.linear 0 320 320 false, Node.linear 1 768 320 false, Node.linear 2 768 320 false],
     Node.sdpa 8 false]

/-- C3 counterexample.  Constructing a `CrossAttentionAdapter` over a
target whose search yields 3 (not 4) matching linear leaves does not fail:
`__init__` performs no count check, so construction completes normally,
producing an adapter whose four splice points are empty and whose target is
untouched; the count check only runs inside `inject`, which is where the
failure happens. -/
theorem cross_attention_construction_unchecked :
    (CrossAttentionAdapter.init threeLinearTarget sampleAttrs 77 4 1 100 101).target_linears.length
      = 3 ∧
    CrossAttentionAdapter.init threeLinearTarget sampleAttrs 77 4 1 100 101 =
      { target := threeLinearTarget, attrs := sampleAttrs, text_sequence_length := 77,
        image_sequence_length := 4, scale := 1, wkImageId := 100, wvImageId := 101,
        ipq := [], ipk := [], ipv := [], ipo := [] } := by
  constructor
  · simp [CrossAttentionAdapter.init, CrossAttentionAdapter.target_linears,
      threeLinearTarget, walkLinears, walkLinearsList]
  · rfl

/-- C3 (amended).  Injecting a `CrossAttentionAdapter` whose target's
type-directed search yields a number of matching linear leaves different
from 4 fails (the `assert len(linears) == 4` fires), and it fails before
any mutation of the target or of the adapter's splice points occurs: the
count check is the first step of `inject`, and the failing call leaves
every part of the state untouched. -/
theorem cross_attention_inject_requires_exactly_four
    (a : CrossAttentionAdapter) (parent : List Slot)
    (h : a.target_linears.length ≠ 4) :
    a.inject parent = none := by
  rw [CrossAttentionAdapter.inject]
  split
  · rename_i l0 l1 l2 l3 heq
    exact absurd (show a.target_linears.length = 4 by rw [heq]; rfl) h
  · rfl

theorem cross_attention_inject_requires_exactly_four_witness :
    (CrossAttentionAdapter.init threeLinearTarget sampleAttrs 77 4 1 100 101).inject
      [Slot.node threeLinearTarget] = none := by
  apply cross_attention_inject_requires_exactly_four
  simp [CrossAttentionAdapter.init, CrossAttentionAdapter.target_linears,
    threeLinearTarget, walkLinears, walkLinearsList]

-- Erases the contents of every `Lora` wrapper anywhere in the tree,
-- leaving everything else untouched.  Used to state that the type-directed
-- search never looks inside a `Lora` wrapper.
mutual

def pruneLoraContents : Node → Node
  | Node.chain NodeKind.lora _ => Node.chain NodeKind.lora []
  | Node.chain k cs => Node.chain k (pruneLoraContentsList cs)
  | n => n

def pruneLoraContentsList : List Node → List Node
  | [] => []
  | c :: cs => pruneLoraContents c :: pruneLoraContentsList cs

end

mutual

theorem walkLinears_pruneLoraContents (t : Node) :
    walkLinears (pruneLoraContents t) = walkLinears t := by
  cases t with
  | linear i a b c => rfl
  | slicing d s l => rfl
  | sdpa n c => rfl
  | lam i => rfl
  | chain k cs =>
    cases k <;>
      simp [pruneLoraContents, walkLinears, walkLinearsList_pruneLoraContentsList cs]

theorem walkLinearsList_pruneLoraContentsList (cs : List Node) :
    walkLinearsList (pruneLoraContentsList cs) = walkLinearsList cs := by
  cases cs with
  | nil => rfl
  | cons c cs =>
    simp [pruneLoraContentsList, walkLinearsList, walkLinears_pruneLoraContents c,
      walkLinearsList_pruneLoraContentsList cs]

end

/-- C5.  The Lora-pruning predicate used by the target search: (i) a
`Lora`-wrapped branch inserted anywhere among the target's children
contributes nothing to the match list, whatever its contents `ds` hold
and however many linear leaves they contain; (ii) at arbitrary depth, the
contents of every `Lora` wrapper are irrelevant to the search result —
erasing them all changes nothing, so a parameter leaf nested inside a
`Lora` wrapper is never selected as one of the 4 matches. -/
theorem lora_wrapped_leaves_never_selected
    (attrs : TargetAttrs) (tsl isl : Nat) (scale : ℚ) (wk wv : Nat)
    (k : NodeKind) (xs ys ds : List Node) (t : Node) :
    (CrossAttentionAdapter.init (Node.chain k (xs ++ Node.chain NodeKind.lora ds :: ys))
        attrs tsl isl scale wk wv).target_linears =
      (CrossAttentionAdapter.init (Node.chain k (xs ++ ys))
        attrs tsl isl scale wk wv).target_linears ∧
    walkLinears (pruneLoraContents t) = walkLinears t := by
  constructor
  · show walkLinearsList (xs ++ Node.chain NodeKind.lora ds :: ys) = walkLinearsList (xs ++ ys)
    induction xs with
    | nil => simp [walkLinearsList, walkLinears]
    | cons x xs ih => simp [walkLinearsList, ih]
  · exact walkLinears_pruneLoraContents t

/-- One observable structural operation performed by `IPAdapter.inject` /
`IPAdapter.eject`: the 4-point splice (or un-splice) of the per-site
adapter at a given ordinal, or the top-level graph substitution (or its
restoration) performed by the `super()` call. -/
inductive AdapterEvent where
  | subInject (i : Nat)
  | subEject (i : Nat)
  | topInject
  | topEject
  deriving DecidableEq, Repr

/-- Embeds `IPAdapter.inject` (lines 201-204) as its sequence of
structural operations: `for adapter in self.sub_adapters: adapter.inject()`
then `return super().inject(parent)`.  `ordinals` are the indices of
`self.sub_adapters` in order. -/
def IPAdapter.injectEvents (ordinals : List Nat) : List AdapterEvent :=
  ordinals.map AdapterEvent.subInject ++ [AdapterEvent.topInject]

/-- Embeds `IPAdapter.eject` (lines 206-209) as its sequence of structural
operations: `for adapter in self.sub_adapters: adapter.eject()` then
`super().eject()`. -/
def IPAdapter.ejectEvents (ordinals : List Nat) : List AdapterEvent :=
  ordinals.map AdapterEvent.subEject ++ [AdapterEvent.topEject]

/-- Modelled from the spec's words for claim C2 (the order the claim
asserts): eject "first restores the top-level substitution and then ejects
every Per-Site Adapter". -/
def IPAdapter.ejectEventsClaimed (ordinals : List Nat) : List AdapterEvent :=
  AdapterEvent.topEject :: ordinals.map AdapterEvent.subEject

/-- The eject-side counterpart of an inject-side operation. -/
def AdapterEvent.undo : AdapterEvent → AdapterEvent
  | AdapterEvent.subInject i => AdapterEvent.subEject i
  | AdapterEvent.topInject => AdapterEvent.topEject
  | e => e

/-- C2 counterexample.  With a single per-site adapter, the operation
sequence actually performed by `IPAdapter.eject` (per-site ejection first,
top-level restoration last) differs from the order the claim asserts
(top-level restoration first). -/
theorem ipadapter_eject_order_counterexample :
    IPAdapter.ejectEvents [0] ≠ IPAdapter.ejectEventsClaimed [0] := by
  decide

/-- C2 (amended).  `IPAdapter.inject` injects every per-site adapter, in
`sub_adapters` order, and only then substitutes the top-level graph;
`IPAdapter.eject` performs the corresponding undo operations in the SAME
phase order — it ejects every per-site adapter first and restores the
top-level substitution last — not in the reverse order the claim
states. -/
theorem ipadapter_inject_eject_order (ordinals : List Nat) :
    IPAdapter.injectEvents ordinals =
      ordinals.map AdapterEvent.subInject ++ [AdapterEvent.topInject] ∧
    IPAdapter.ejectEvents ordinals =
      (IPAdapter.injectEvents ordinals).map AdapterEvent.undo := by
  refine ⟨rfl, ?_⟩
  simp only [IPAdapter.injectEvents, IPAdapter.ejectEvents, List.map_append, List.map_map]
  rfl

/-- Parameter keys are modelled as character lists (python strings);
parameter stores and weight bundles as ordered association lists whose
values are numeric-tensor identities. -/
abbrev ParamStore := List (List Char × Nat)

/-- Embeds the sub-bundle extraction of `IPAdapter.__init__` (lines
186-188 and 192-197): keep the keys having the given leading string and
strip it (python `k.startswith(...)` and `k.removeprefix(...)`). -/
def subBundle (pre : List Char) (weights : ParamStore) : ParamStore :=
  weights.filterMap fun kv =>
    if pre.isPrefixOf kv.1 then some (kv.1.drop pre.length, kv.2) else none

/-- Modelled from the spec: `load_state_dict` is the external weight
application mechanism (scoped out of the core); the spec says "Loading is a
direct parameter overwrite", so every parameter named in the state dict
receives the bundled value and every other parameter keeps its current
value. -/
def load_state_dict (params : ParamStore) (sd : ParamStore) : ParamStore :=
  params.map fun p =>
    match sd.lookup p.1 with
    | some v => (p.1, v)
    | none => p

/-- The python format string for the per-site ordinal: a three-digit
zero-padded decimal. -/
def pad3 (i : Nat) : List Char :=
  if i < 10 then '0' :: '0' :: Nat.toDigits 10 i
  else if i < 100 then '0' :: Nat.toDigits 10 i
  else Nat.toDigits 10 i

/-- The per-site key start string of ordinal `i`. -/
def ordinalKeyStart (i : Nat) : List Char :=
  "ip_adapter.".toList ++ pad3 i ++ ".".toList

/-- Embeds the weight-routing part of `IPAdapter.__init__` (lines
185-199): load the stripped `image_proj.` sub-bundle into the projection
module, and for each per-site adapter at ordinal `i` load the stripped
three-digit `ip_adapter.` sub-bundle of `i` into that adapter's
parameters. -/
def IPAdapter.routeWeights (imageProjParams : ParamStore) (subParams : List ParamStore)
    (weights : ParamStore) : ParamStore × List ParamStore :=
  (load_state_dict imageProjParams (subBundle "image_proj.".toList weights),
   subParams.enum.map fun p => load_state_dict p.2 (subBundle (ordinalKeyStart p.1) weights))

theorem subBundle_of_no_match (pre : List Char) (weights : ParamStore)
    (h : ∀ kv ∈ weights, ¬ pre.isPrefixOf kv.1) : subBundle pre weights = [] := by
  induction weights with
  | nil => rfl
  | cons kv ws ih =>
    simp only [subBundle, List.filterMap_cons]
    rw [if_neg (h kv (List.mem_cons_self kv ws))]
    exact ih fun q hq => h q (List.mem_cons_of_mem kv hq)

theorem load_state_dict_empty (params : ParamStore) : load_state_dict params [] = params := by
  simp [load_state_dict, List.lookup]

/-- C4.  Ordinal weight routing of `IPAdapter.__init__`: (i) the per-site
adapter at ordinal `i` receives exactly its own stripped
`ip_adapter.<i:3digits>.` sub-bundle, applied as a direct parameter
overwrite; (ii) an ordinal covered by no key of the bundle keeps its
freshly-initialized parameters untouched; (iii) a key whose name starts
with neither `image_proj.` nor any in-range per-site ordinal marker is
ignored: adding it to the bundle changes nothing in the routed result. -/
theorem ipadapter_ordinal_weight_routing
    (proj : ParamStore) (subs : List ParamStore) (weights : ParamStore) :
    (∀ i : Nat,
      ((IPAdapter.routeWeights proj subs weights).2)[i]? =
        (subs[i]?).map fun p => load_state_dict p (subBundle (ordinalKeyStart i) weights)) ∧
    (∀ i : Nat, (∀ kv ∈ weights, ¬ (ordinalKeyStart i).isPrefixOf kv.1) →
      ((IPAdapter.routeWeights proj subs weights).2)[i]? = subs[i]?) ∧
    (∀ (k : List Char) (v : Nat),
      ¬ ("image_proj.".toList.isPrefixOf k) →
      (∀ i, i < subs.length → ¬ (ordinalKeyStart i).isPrefixOf k) →
      IPAdapter.routeWeights proj subs ((k, v) :: weights) =
        IPAdapter.routeWeights proj subs weights) := by
  have hget : ∀ i : Nat,
      ((IPAdapter.routeWeights proj subs weights).2)[i]? =
        (subs[i]?).map fun p => load_state_dict p (subBundle (ordinalKeyStart i) weights) := by
    intro i
    simp only [IPAdapter.routeWeights, List.getElem?_map, List.getElem?_enum]
    cases subs[i]? <;> rfl
  refine ⟨hget, ?_, ?_⟩
  · intro i hnone
    rw [hget i, subBundle_of_no_match _ _ hnone]
    cases subs[i]? with
    | none => rfl
    | some p => simp [load_state_dict_empty]
  · intro k v hproj hord
    simp only [IPAdapter.routeWeights, Prod.mk.injEq]
    refine ⟨?_, ?_⟩
    · simp only [subBundle, List.filterMap_cons, if_neg hproj]
    · apply List.map_congr_left
      intro p hp
      have hps := List.mem_enum_iff_getElem?.mp hp
      obtain ⟨hlt, -⟩ := List.getElem?_eq_some.mp hps
      have hsb : subBundle (ordinalKeyStart p.1) ((k, v) :: weights) =
          subBundle (ordinalKeyStart p.1) weights := by
        simp only [subBundle, List.filterMap_cons, if_neg (hord p.1 hlt)]
      rw [hsb]

theorem ipadapter_ordinal_weight_routing_witness :
    ((IPAdapter.routeWeights [("proj.weight".toList, 0)]
        [[("to_k_ip.weight".toList, 10)], [("to_k_ip.weight".toList, 11)],
         [("to_k_ip.weight".toList, 12)]]
        [("ip_adapter.000.to_k_ip.weight".toList, 50),
         ("ip_adapter.002.to_k_ip.weight".toList, 52)]).2)[1]? =
      [[("to_k_ip.weight".toList, 10)], [("to_k_ip.weight".toList, 11)],
       [("to_k_ip.weight".toList, 12)]][1]? ∧
    IPAdapter.routeWeights [("proj.weight".toList, 0)]
        [[("to_k_ip.weight".toList, 10)], [("to_k_ip.weight".toList, 11)],
         [("to_k_ip.weight".toList, 12)]]
        (("junk.key".toList, 99) ::
          [("ip_adapter.000.to_k_ip.weight".toList, 50),
           ("ip_adapter.002.to_k_ip.weight".toList, 52)]) =
      IPAdapter.routeWeights [("proj.weight".toList, 0)]
        [[("to_k_ip.weight".toList, 10)], [("to_k_ip.weight".toList, 11)],
         [("to_k_ip.weight".toList, 12)]]
        [("ip_adapter.000.to_k_ip.weight".toList, 50),
         ("ip_adapter.002.to_k_ip.weight".toList, 52)] := by
  refine ⟨(ipadapter_ordinal_weight_routing _ _ _).2.1 1 ?_,
    (ipadapter_ordinal_weight_routing _ _ _).2.2 "junk.key".toList 99 ?_ ?_⟩
  · decide
  · decide
  · decide

/-- Dot product of two rational vectors (the linear-map primitive's
row-times-input product; extra coordinates of either side are ignored by
`zip`, which is only exercised at matching lengths). -/
def dotQ (r x : List ℚ) : ℚ := ((r.zip x).map fun p => p.1 * p.2).sum

/-- The `fl.Linear` numeric primitive: `weight` has one row per output
feature and `bias` one entry per output feature. -/
def linearApply (weight : List (List ℚ)) (bias : List ℚ) (x : List ℚ) : List ℚ :=
  (weight.zip bias).map fun rb => dotQ rb.1 x + rb.2

/-- The `fl.Reshape(sequence_length, clip_text_embedding_dim)` step of
`ImageProjection`: cut the flat output vector into `seq` consecutive rows
of `dim` entries (row-major). -/
def reshapeRows (seq dim : Nat) (l : List ℚ) : List (List ℚ) :=
  (List.range seq).map fun i => (l.drop (i * dim)).take dim

/-- State of an `ImageProjection` (lines 22-45): the three structural
attributes and the parameters of its single linear map from
`clip_image_embedding_dim` to `clip_text_embedding_dim * sequence_length`
features. -/
structure ImageProjection where
  clip_image_embedding_dim : Nat
  clip_text_embedding_dim : Nat
  sequence_length : Nat
  weight : List (List ℚ)
  bias : List ℚ

/-- Embeds running `ImageProjection` on one embedding vector: the linear
map, the reshape into `(sequence_length, clip_text_embedding_dim)`, then
the trailing normalization layer (the `fl.LayerNorm` numeric kernel is
repository code outside the provided sources; modelled from the spec as
an arbitrary normalization `norm` acting on each last-axis row). -/
def ImageProjection.apply (p : ImageProjection) (norm : List ℚ → List ℚ)
    (x : List ℚ) : List (List ℚ) :=
  (reshapeRows p.sequence_length p.clip_text_embedding_dim
    (linearApply p.weight p.bias x)).map norm

/-- The torch `zeros_like` on a vector. -/
def zeros_like (x : List ℚ) : List ℚ := x.map fun _ => 0

/-- Embeds `IPAdapter.compute_clip_image_embedding` (lines 212-216): run
the external CLIP image encoder (modelled from the spec as an arbitrary
callable producing an embedding vector), project it to the conditional
pseudo-tokens, project an all-zero embedding of the same shape to the
negative pseudo-tokens, and concatenate the two, negative first. -/
def compute_clip_image_embedding {α : Type} (encoder : α → List ℚ)
    (p : ImageProjection) (norm : List ℚ → List ℚ) (image_prompt : α) : List (List ℚ) :=
  let clip_embedding := encoder image_prompt
  let conditional_embedding := ImageProjection.apply p norm clip_embedding
  let negative_embedding := ImageProjection.apply p norm (zeros_like clip_embedding)
  negative_embedding ++ conditional_embedding

theorem imageProjection_apply_length (p : ImageProjection) (norm : List ℚ → List ℚ)
    (x : List ℚ) : (ImageProjection.apply p norm x).length = p.sequence_length := by
  simp [ImageProjection.apply, reshapeRows]

theorem imageProjection_apply_row_length (p : ImageProjection) (norm : List ℚ → List ℚ)
    (x : List ℚ)
    (hnorm : ∀ r, (norm r).length = r.length)
    (hw : p.weight.length = p.clip_text_embedding_dim * p.sequence_length)
    (hb : p.bias.length = p.clip_text_embedding_dim * p.sequence_length) :
    ∀ row ∈ ImageProjection.apply p norm x, row.length = p.clip_text_embedding_dim := by
  intro row hrow
  simp only [ImageProjection.apply, reshapeRows, List.map_map, List.mem_map,
    List.mem_range] at hrow
  obtain ⟨i, hi, hrow⟩ := hrow
  have hlen : (linearApply p.weight p.bias x).length =
      p.clip_text_embedding_dim * p.sequence_length := by
    simp [linearApply, hw, hb]
  subst hrow
  simp only [Function.comp_apply, hnorm, List.length_take, List.length_drop, hlen]
  have hle : p.clip_text_embedding_dim + i * p.clip_text_embedding_dim ≤
      p.clip_text_embedding_dim * p.sequence_length := by
    have h1 : (i + 1) * p.clip_text_embedding_dim ≤
        p.sequence_length * p.clip_text_embedding_dim :=
      Nat.mul_le_mul_right _ hi
    calc p.clip_text_embedding_dim + i * p.clip_text_embedding_dim
        = (i + 1) * p.clip_text_embedding_dim := by ring
      _ ≤ p.sequence_length * p.clip_text_embedding_dim := h1
      _ = p.clip_text_embedding_dim * p.sequence_length := Nat.mul_comm _ _
  exact Nat.min_eq_left (Nat.le_sub_of_add_le hle)

/-- C6.  `compute_clip_image_embedding` returns the concatenation, negative
first, of the projection of an all-zero embedding of the same shape as the
encoder output and the projection of the encoder output itself: the first
`sequence_length` rows are exactly the negative pseudo-tokens, the
remaining `sequence_length` rows are exactly the conditional ones, and
every row of both halves has width `clip_text_embedding_dim`. -/
theorem compute_clip_image_embedding_pairing {α : Type} (encoder : α → List ℚ)
    (p : ImageProjection) (norm : List ℚ → List ℚ) (img : α)
    (hnorm : ∀ r, (norm r).length = r.length)
    (hw : p.weight.length = p.clip_text_embedding_dim * p.sequence_length)
    (hb : p.bias.length = p.clip_text_embedding_dim * p.sequence_length) :
    compute_clip_image_embedding encoder p norm img =
      ImageProjection.apply p norm (zeros_like (encoder img)) ++
        ImageProjection.apply p norm (encoder img) ∧
    (compute_clip_image_embedding encoder p norm img).take p.sequence_length =
      ImageProjection.apply p norm (zeros_like (encoder img)) ∧
    (compute_clip_image_embedding encoder p norm img).drop p.sequence_length =
      ImageProjection.apply p norm (encoder img) ∧
    (compute_clip_image_embedding encoder p norm img).length = 2 * p.sequence_length ∧
    ∀ row ∈ compute_clip_image_embedding encoder p norm img,
      row.length = p.clip_text_embedding_dim := by
  have hcat : compute_clip_image_embedding encoder p norm img =
      ImageProjection.apply p norm (zeros_like (encoder img)) ++
        ImageProjection.apply p norm (encoder img) := rfl
  have hlen0 := imageProjection_apply_length p norm (zeros_like (encoder img))
  have hlen1 := imageProjection_apply_length p norm (encoder img)
  refine ⟨hcat, ?_, ?_, ?_, ?_⟩
  · rw [hcat, List.take_left' hlen0]
  · rw [hcat, List.drop_left' hlen0]
  · rw [hcat, List.length_append, hlen0, hlen1]
    ring
  · rw [hcat]
    intro row hrow
    rcases List.mem_append.mp hrow with h | h
    · exact imageProjection_apply_row_length p norm _ hnorm hw hb row h
    · exact imageProjection_apply_row_length p norm _ hnorm hw hb row h

/-- A small concrete projection: image width 1, text width 1, two
pseudo-tokens. -/
def demoProjection : ImageProjection :=
  { clip_image_embedding_dim := 1, clip_text_embedding_dim := 1, sequence_length := 2,
    weight := [[2], [3]], bias := [1, 1] }

theorem compute_clip_image_embedding_pairing_witness :
    compute_clip_image_embedding (fun _ : Unit => [5]) demoProjection (fun r => r) () =
      ImageProjection.apply demoProjection (fun r => r) (zeros_like [5]) ++
        ImageProjection.apply demoProjection (fun r => r) [5] ∧
    (compute_clip_image_embedding (fun _ : Unit => [5]) demoProjection (fun r => r) ()).take
        demoProjection.sequence_length =
      ImageProjection.apply demoProjection (fun r => r) (zeros_like [5]) ∧
    (compute_clip_image_embedding (fun _ : Unit => [5]) demoProjection (fun r => r) ()).drop
        demoProjection.sequence_length =
      ImageProjection.apply demoProjection (fun r => r) [5] ∧
    (compute_clip_image_embedding (fun _ : Unit => [5]) demoProjection (fun r => r) ()).length =
      2 * demoProjection.sequence_length ∧
    ∀ row ∈ compute_clip_image_embedding (fun _ : Unit => [5]) demoProjection (fun r => r) (),
      row.length = demoProjection.clip_text_embedding_dim := by
  exact compute_clip_image_embedding_pairing (fun _ : Unit => [5]) demoProjection
    (fun r => r) () (fun r => rfl) (by decide) (by decide)

/-- The failure modes of `IPAdapter._normalize`: the two leading
assertions and the explicit `ValueError` raised for a zero `std`
component. -/
inductive NormError where
  | assertNotFloat
  | assertNdim
  | zeroStd
  deriving DecidableEq, Repr

/-- A torch tensor as `_normalize` observes it: its floating-point flag,
its shape, and its element data in row-major order. -/
structure PTensor where
  isFloat : Bool
  shape : List Nat
  data : List ℚ
  deriving DecidableEq, Repr

/-- The `k`-th dimension counted from the end of a shape (0 is the last),
defaulting to 1. -/
def dimFromEnd (shape : List Nat) (k : Nat) : Nat := shape.reverse.getD k 1

/-- The broadcast channel index of the flat element position `i` when a
`(-1, 1, 1)`-shaped per-channel vector is applied to a tensor of the
given shape: the third-from-last coordinate of `i`. -/
def channelOf (shape : List Nat) (i : Nat) : Nat :=
  (i / (dimFromEnd shape 0 * dimFromEnd shape 1)) % dimFromEnd shape 2

/-- Map over the elements of a flat data list together with their
positions. -/
def mapWithIdx (f : Nat → ℚ → ℚ) (l : List ℚ) : List ℚ :=
  l.enum.map fun p => f p.1 p.2

/-- Embeds `IPAdapter._normalize` (lines 233-255).  Result: the returned
tensor paired with the final state of the input tensor (the code clones
unless `inplace`, so only an `inplace` run that reaches the final
`sub_`/`div_` mutates its input).  Order mirrors the source: the two
assertions, then the zero-`std` domain check — all three fire before any
arithmetic touches the data — then the per-channel `(x - mean) / std`.
The broadcast of the `(-1, 1, 1)`-viewed mean/std against the trailing
dimensions is modelled for the compatible case (channel dimension equal to
the mean/std length, which torch requires). -/
def _normalize (t : PTensor) (mean std : List ℚ) (inplace : Bool) :
    Except NormError PTensor × PTensor :=
  if !t.isFloat then (Except.error NormError.assertNotFloat, t)
  else if t.shape.length < 3 then (Except.error NormError.assertNdim, t)
  else if std.any (fun s => s == 0) then (Except.error NormError.zeroStd, t)
  else
    let out : PTensor :=
      { t with data := mapWithIdx (fun i x =>
          (x - mean.getD (channelOf t.shape i) 0) / std.getD (channelOf t.shape i) 0) t.data }
    (Except.ok out, if inplace then out else t)

/-- C7 counterexample.  On a non-floating-point tensor, `_normalize` with a
zero-containing `std` does not fail with the domain error the claim
promises: the leading floating-point assertion fires first. -/
theorem normalize_domain_error_counterexample :
    (_normalize { isFloat := false, shape := [3, 1, 1], data := [1] } [0, 0, 0] [0, 1, 1]
        true).1 = Except.error NormError.assertNotFloat ∧
    NormError.assertNotFloat ≠ NormError.zeroStd ∧
    ([0, 1, 1] : List ℚ).any (fun s => s == 0) = true := by
  refine ⟨rfl, by decide, by decide⟩

theorem getD_three_ones (c : Nat) (hc : c < 3) : ([1, 1, 1] : List ℚ).getD c 0 = 1 := by
  interval_cases c <;> rfl

theorem getD_three_zeros (c : Nat) : ([0, 0, 0] : List ℚ).getD c 0 = 0 := by
  match c with
  | 0 => rfl
  | 1 => rfl
  | 2 => rfl
  | n + 3 => rfl

/-- C7 (amended).  For every floating-point input tensor with at least 3
dimensions: (i) whenever a `std` component equals zero (after conversion
to the tensor's exact rational dtype, which is the identity), `_normalize`
fails with the domain error and the input tensor is returned unchanged —
the check precedes the division and any mutation, also when in-place
mutation was requested; (ii) with `mean=[0,0,0]`, `std=[1,1,1]` and a
channel dimension of 3 (the broadcast-compatible case), `_normalize`
succeeds and is the identity on the tensor's values, whatever `inplace`
is. -/
theorem normalize_zero_std_and_identity (t : PTensor) (mean std : List ℚ) (inplace : Bool)
    (hf : t.isFloat = true) (hd : 3 ≤ t.shape.length) :
    (std.any (fun s => s == 0) = true →
      _normalize t mean std inplace = (Except.error NormError.zeroStd, t)) ∧
    (dimFromEnd t.shape 2 = 3 →
      _normalize t [0, 0, 0] [1, 1, 1] inplace = (Except.ok t, t)) := by
  constructor
  · intro hz
    rw [_normalize, hf]
    simp only [Bool.not_true, Bool.false_eq_true, if_false, hz, if_true]
    rw [if_neg (by omega)]
  · intro hch
    have hid : mapWithIdx (fun i x =>
        (x - ([0, 0, 0] : List ℚ).getD (channelOf t.shape i) 0) /
          ([1, 1, 1] : List ℚ).getD (channelOf t.shape i) 0) t.data = t.data := by
      have hstep : ∀ i x, (x - ([0, 0, 0] : List ℚ).getD (channelOf t.shape i) 0) /
          ([1, 1, 1] : List ℚ).getD (channelOf t.shape i) 0 = x := by
        intro i x
        have hcc : channelOf t.shape i < 3 := by
          rw [← hch]
          exact Nat.mod_lt _ (by rw [hch]; omega)
        rw [getD_three_zeros, getD_three_ones _ hcc, sub_zero, div_one]
      calc mapWithIdx (fun i x =>
            (x - ([0, 0, 0] : List ℚ).getD (channelOf t.shape i) 0) /
              ([1, 1, 1] : List ℚ).getD (channelOf t.shape i) 0) t.data
          = mapWithIdx (fun _ x => x) t.data := by
            unfold mapWithIdx
            exact List.map_congr_left fun p _ => hstep p.1 p.2
        _ = t.data := by
            unfold mapWithIdx
            exact List.enum_map_snd t.data
    rw [_normalize, hf]
    simp only [Bool.not_true, Bool.false_eq_true, if_false]
    rw [if_neg (by omega), if_neg (by decide)]
    have hout : ({ isFloat := true, shape := t.shape, data := mapWithIdx (fun i x =>
        (x - ([0, 0, 0] : List ℚ).getD (channelOf t.shape i) 0) /
          ([1, 1, 1] : List ℚ).getD (channelOf t.shape i) 0) t.data } : PTensor) = t := by
      rw [hid, ← hf]
    rw [hout]
    cases inplace <;> rfl

theorem normalize_zero_std_and_identity_witness :
    (([0, 1, 1] : List ℚ).any (fun s => s == 0) = true →
      _normalize { isFloat := true, shape := [3, 1, 1], data := [7, 8, 9] } [1, 2, 3]
        [0, 1, 1] true =
        (Except.error NormError.zeroStd,
         { isFloat := true, shape := [3, 1, 1], data := [7, 8, 9] })) ∧
    (dimFromEnd [3, 1, 1] 2 = 3 →
      _normalize { isFloat := true, shape := [3, 1, 1], data := [7, 8, 9] } [0, 0, 0]
        [1, 1, 1] true =
        (Except.ok { isFloat := true, shape := [3, 1, 1], data := [7, 8, 9] },
         { isFloat := true, shape := [3, 1, 1], data := [7, 8, 9] })) := by
  exact normalize_zero_std_and_identity
    { isFloat := true, shape := [3, 1, 1], data := [7, 8, 9] } [1, 2, 3] [0, 1, 1] true
    rfl (by decide)

/-- C10.  Implicit preconditions of `_normalize`: a tensor that is not
floating-point fails on the first assertion, and a floating-point tensor
with fewer than 3 dimensions fails on the second, in both cases before any
cloning, computation or mutation — the input tensor is handed back
untouched whatever `mean`, `std` and `inplace` are. -/
theorem normalize_assert_preconditions (t : PTensor) (mean std : List ℚ) (inplace : Bool) :
    (t.isFloat = false →
      _normalize t mean std inplace = (Except.error NormError.assertNotFloat, t)) ∧
    (t.isFloat = true → t.shape.length < 3 →
      _normalize t mean std inplace = (Except.error NormError.assertNdim, t)) := by
  constructor
  · intro h
    rw [_normalize, h]
    rfl
  · intro hf hd
    rw [_normalize, hf]
    simp only [Bool.not_true, Bool.false_eq_true, if_false]
    rw [if_pos hd]

theorem normalize_assert_preconditions_witness :
    _normalize { isFloat := false, shape := [3, 1, 1], data := [1] } [0] [1] false =
      (Except.error NormError.assertNotFloat,
       { isFloat := false, shape := [3, 1, 1], data := [1] }) ∧
    _normalize { isFloat := true, shape := [2, 2], data := [1, 2, 3, 4] } [0] [1] true =
      (Except.error NormError.assertNdim,
       { isFloat := true, shape := [2, 2], data := [1, 2, 3, 4] }) :=
  ⟨(normalize_assert_preconditions
      { isFloat := false, shape := [3, 1, 1], data := [1] } [0] [1] false).1 rfl,
   (normalize_assert_preconditions
      { isFloat := true, shape := [2, 2], data := [1, 2, 3, 4] } [0] [1] true).2 rfl
      (by decide)⟩

/-- The two-element routing enumeration `_CrossAttnIndex` (lines 48-50):
text cross-attention is index 0, image cross-attention is index 1. -/
inductive CrossAttnIndex where
  | txt
  | img
  deriving DecidableEq, Repr

/-- Embeds `CrossAttentionAdapter.select_qkv` (lines 123-126): keep the
shared query and pick the key/value pair component of the given index. -/
def select_qkv (query : List ℚ) (keys values : List ℚ × List ℚ) :
    CrossAttnIndex → List ℚ × List ℚ × List ℚ
  | CrossAttnIndex.txt => (query, keys.1, values.1)
  | CrossAttnIndex.img => (query, keys.2, values.2)

/-- Embeds `CrossAttentionAdapter.scale_outputs` (lines 128-129):
elementwise multiplication of the branch output by the scale. -/
def scale_outputs (scale : ℚ) (x : List ℚ) : List ℚ := x.map fun v => v * scale

/-- The text branch of the `fl.Sum` fragment (lines 110-113): select the
text triple and run the attention primitive (the numeric
scaled-dot-product kernel is scoped out by the spec as a given primitive,
hence an arbitrary function argument), unscaled. -/
def textAttnBranch (sdpa : List ℚ × List ℚ × List ℚ → List ℚ)
    (query : List ℚ) (keys values : List ℚ × List ℚ) : List ℚ :=
  sdpa (select_qkv query keys values CrossAttnIndex.txt)

/-- The image branch of the `fl.Sum` fragment (lines 114-118): select the
image triple, run the same attention primitive, then `scale_outputs`. -/
def imageAttnBranch (sdpa : List ℚ × List ℚ × List ℚ → List ℚ) (scale : ℚ)
    (query : List ℚ) (keys values : List ℚ × List ℚ) : List ℚ :=
  scale_outputs scale (sdpa (select_qkv query keys values CrossAttnIndex.img))

/-- The `fl.Sum` container (lines 109-119): elementwise sum of its two
branch outputs. -/
def sumFragment (sdpa : List ℚ × List ℚ × List ℚ → List ℚ) (scale : ℚ)
    (query : List ℚ) (keys values : List ℚ × List ℚ) : List ℚ :=
  List.zipWith (fun a b => a + b) (textAttnBranch sdpa query keys values)
    (imageAttnBranch sdpa scale query keys values)

/-- C8.  Scale linearity of the image branch: for fixed inputs and any
nonzero `s1`, the image branch's contribution to the summed output at
scale `s2` is exactly the `s2/s1` elementwise multiple of its contribution
at scale `s1`; at scale 0 every component of the image branch is exactly
zero; and the text summand of the summed output is the same
scale-independent term for every scale. -/
theorem image_branch_scale_linearity (sdpa : List ℚ × List ℚ × List ℚ → List ℚ)
    (query : List ℚ) (keys values : List ℚ × List ℚ) (s1 s2 : ℚ) (h1 : s1 ≠ 0) :
    imageAttnBranch sdpa s2 query keys values =
      scale_outputs (s2 / s1) (imageAttnBranch sdpa s1 query keys values) ∧
    (∀ y ∈ imageAttnBranch sdpa 0 query keys values, y = 0) ∧
    (∀ s : ℚ, sumFragment sdpa s query keys values =
      List.zipWith (fun a b => a + b) (textAttnBranch sdpa query keys values)
        (imageAttnBranch sdpa s query keys values)) := by
  refine ⟨?_, ?_, fun s => rfl⟩
  · simp only [imageAttnBranch, scale_outputs, List.map_map]
    apply List.map_congr_left
    intro x _
    have : x * s1 * (s2 / s1) = x * (s2 / s1 * s1) := by ring
    rw [Function.comp_apply, this, div_mul_cancel₀ s2 h1]
  · intro y hy
    simp only [imageAttnBranch, scale_outputs, List.mem_map] at hy
    obtain ⟨v, -, hv⟩ := hy
    rw [← hv, mul_zero]

theorem image_branch_scale_linearity_witness :
    imageAttnBranch (fun _ => [2]) 6 [1] ([1], [2]) ([3], [4]) =
      scale_outputs (6 / 2) (imageAttnBranch (fun _ => [2]) 2 [1] ([1], [2]) ([3], [4])) ∧
    (∀ y ∈ imageAttnBranch (fun _ => [2]) 0 [1] ([1], [2]) ([3], [4]), y = 0) ∧
    (∀ s : ℚ, sumFragment (fun _ => [2]) s [1] ([1], [2]) ([3], [4]) =
      List.zipWith (fun a b => a + b) (textAttnBranch (fun _ => [2]) [1] ([1], [2]) ([3], [4]))
        (imageAttnBranch (fun _ => [2]) s [1] ([1], [2]) ([3], [4]))) :=
  image_branch_scale_linearity (fun _ => [2]) [1] ([1], [2]) ([3], [4]) 2 6 (by norm_num)

/-- The `fl.Slicing(dim=1, start, length)` layer on the sequence axis
(repository code outside the provided sources; modelled from the spec:
slice the context to the `length` positions starting at `start`).  The
context is the list of token vectors along dimension 1. -/
def slicingApply {α : Type} (start len : Nat) (ctx : List α) : List α :=
  (ctx.drop start).take len

/-- The text-side slicing layer built by `CrossAttentionAdapter.__init__`
(lines 78 and 94): `start=0`, `length=text_sequence_length`. -/
def textContextSlice {α : Type} (text_sequence_length : Nat) (ctx : List α) : List α :=
  slicingApply 0 text_sequence_length ctx

/-- The image-side slicing layer built by `CrossAttentionAdapter.__init__`
(lines 82 and 98): `start=text_sequence_length`,
`length=image_sequence_length`. -/
def imageContextSlice {α : Type} (text_sequence_length image_sequence_length : Nat)
    (ctx : List α) : List α :=
  slicingApply text_sequence_length image_sequence_length ctx

/-- C9.  Context slicing: on any context of total length
`text_sequence_length + image_sequence_length`, the text branch's slice is
exactly the first `text_sequence_length` positions, the image branch's
slice is exactly the `image_sequence_length` positions starting at offset
`text_sequence_length`, and the two slices partition the context. -/
theorem context_slicing {α : Type} (tsl isl : Nat) (ctx : List α)
    (hlen : ctx.length = tsl + isl) :
    textContextSlice tsl ctx = ctx.take tsl ∧
    (textContextSlice tsl ctx).length = tsl ∧
    imageContextSlice tsl isl ctx = ctx.drop tsl ∧
    (imageContextSlice tsl isl ctx).length = isl ∧
    textContextSlice tsl ctx ++ imageContextSlice tsl isl ctx = ctx := by
  have ht : textContextSlice tsl ctx = ctx.take tsl := by
    simp [textContextSlice, slicingApply]
  have hi : imageContextSlice tsl isl ctx = ctx.drop tsl := by
    rw [imageContextSlice, slicingApply]
    apply List.take_of_length_le
    rw [List.length_drop, hlen]
    omega
  refine ⟨ht, ?_, hi, ?_, ?_⟩
  · rw [ht, List.length_take, hlen]
    exact Nat.min_eq_left (by omega)
  · rw [hi, List.length_drop, hlen]
    omega
  · rw [ht, hi]
    exact List.take_append_drop tsl ctx

theorem context_slicing_witness :
    textContextSlice 77 (List.range 81) = (List.range 81).take 77 ∧
    (textContextSlice 77 (List.range 81)).length = 77 ∧
    imageContextSlice 77 4 (List.range 81) = (List.range 81).drop 77 ∧
    (imageContextSlice 77 4 (List.range 81)).length = 4 ∧
    textContextSlice 77 (List.range 81) ++ imageContextSlice 77 4 (List.range 81) =
      List.range 81 :=
  context_slicing 77 4 (List.range 81) (by simp)

end ImagePrompt
